import Mathlib

/-!
# Verification of the SEBI regulatory knowledge-base corpus core

A shallow embedding, in Lean 4, of the corpus core of the repository:
the hierarchy-aware chunker (`pdf-parser.ts`), the embedding client
(`embedder.ts`), the vector-store manager (`qdrant-client.ts`) and the
ingestion orchestrator (`ingest.ts`).

Modelling conventions:
* The tiktoken `cl100k_base` encoder is an external adapter ("pure
  function, no state" per the design); every definition that calls
  `countTokens` is parametrised by an abstract token counter
  `tc : String → Nat`.
* The MD5 `cacheKey` hash is likewise an abstract `ck : String → String`.
* Embedding vectors are an abstract type `V`; the remote embedding
  provider is a pure function `prov : String → V` (a deterministic,
  always-succeeding provider); retry behaviour around a fallible
  provider is modelled separately by `executeWithRetry`.
* Network effects are made observable: the embedding-client state logs
  every provider batch call, and the ingestion / upsert models return
  the list of network events they issue, in order.
* JavaScript `async` scheduling: per §5 of the design the only
  suspension points are provider / store calls; `embedBatch`'s batch
  queue is processed here sequentially in queue order, which agrees
  with the source whenever a single batch (or a single worker) is in
  flight, and slot assignment (`results[start + idx]`) makes the output
  order independent of completion order in all cases.
* The Zod schemas (`SEBIDocumentSchema`, `SEBIChunkSchema`) from
  `src/types/sebi-document.ts` are embedded in `docSchemaParse` and
  `chunkSafeParse`.  Zod's `.parse` collects every failing field into
  one `ZodError`; the model surfaces a single representative message
  (the first failing check in field declaration order), since no claim
  depends on the error text.  `z.string().url()` is modelled by
  `isValidUrl` (see its comment), and `z.coerce.date()` is not modelled
  as a check: every date reaching a schema parse in the embedded flows
  is already a constructed `Date` object, on which coercion cannot
  fail.
-/

deriving instance DecidableEq for Except

/- ────────────────────────────────────────────────────────────────────
   String primitives
   ──────────────────────────────────────────────────────────────────── -/

/-- Character-level model of JavaScript `String.prototype.trim` (and of
Lean's own `String.trim`, which is built on substring primitives that
the kernel cannot evaluate): drop whitespace from both ends. -/
def jsTrim (s : String) : String :=
  String.mk (((s.toList.dropWhile Char.isWhitespace).reverse.dropWhile
    Char.isWhitespace).reverse)

/-- Character-level model of `String.prototype.split(c)` for a
single-character separator (kernel-evaluable, unlike
`String.splitOn`): split at every occurrence of `c`, keeping empty
pieces. -/
def splitOnCharAux (c : Char) : List Char → List Char → List String
  | [], buf => [String.mk buf.reverse]
  | x :: rest, buf =>
    if x = c then String.mk buf.reverse :: splitOnCharAux c rest []
    else splitOnCharAux c rest (x :: buf)

/-- Split a string on a single-character separator. -/
def splitOnChar (c : Char) (s : String) : List String :=
  splitOnCharAux c s.toList []

/- ────────────────────────────────────────────────────────────────────
   Data model
   ──────────────────────────────────────────────────────────────────── -/

/-- A passage produced by the chunker (`SEBIChunk` in
`src/types/sebi-document.ts`, modelled from the spec's data model).
The optional embedding is populated later by the embedding client.
The free-form `metadata` dictionary is omitted: no claim depends on it. -/
structure SEBIChunk where
  chunk_id : String
  document_id : String
  chunk_index : Nat
  content : String
  tokens : Nat
  section_hierarchy : List String
  embedding : Option (List ℚ)
deriving DecidableEq

/-- A parsed regulatory document (`SEBIDocument`).  `date` is kept as its
ISO string projection (date arithmetic is irrelevant to every claim);
`chapter` and `section` are the optional denormalized fields used by the
store payload.  The free-form `metadata` dictionary is omitted. -/
structure SEBIDocument where
  id : String
  circular_id : String
  title : String
  date : String
  category : String
  content : String
  url : String
  chapter : Option String
  «section» : Option String
deriving DecidableEq

/-- The fixed closed category enumeration (`CATEGORY_KEYS` in
`ingest.ts`, also the `SEBICategory` union). -/
def CATEGORY_KEYS : List String :=
  ["mutual_funds", "portfolio_managers", "invits", "reits", "general"]

/- ────────────────────────────────────────────────────────────────────
   Chunker: sentence splitting (`splitIntoSentences`)
   ──────────────────────────────────────────────────────────────────── -/

/-- A sentence-terminating character, the class `[.!?]` of the
sentence-split regex in `splitIntoSentences`. -/
def isSentEnd (c : Char) : Bool :=
  c = '.' || c = '!' || c = '?'

/-- Character-level model of splitting on the regex with lookbehind
`(?<=[.!?])\s+`: a maximal whitespace run that immediately follows a
sentence-terminating character separates two sentences and is dropped.
`buf` holds the current sentence in reverse. -/
def splitSentAux : List Char → List Char → List String
  | [], buf => [String.mk buf.reverse]
  | c :: rest, buf =>
    if c.isWhitespace && (match buf with | p :: _ => isSentEnd p | [] => false) then
      String.mk buf.reverse :: splitSentAux (rest.dropWhile Char.isWhitespace) []
    else
      splitSentAux rest (c :: buf)
termination_by cs _ => cs.length
decreasing_by
  · exact Nat.lt_succ_of_le (List.dropWhile_suffix _).sublist.length_le
  · exact Nat.lt_succ_self _

/-- `splitIntoSentences` from `pdf-parser.ts`: split on sentence
boundaries, trim each piece, drop empty pieces. -/
def splitIntoSentences (text : String) : List String :=
  ((splitSentAux text.toList []).map jsTrim).filter (· ≠ "")

/- ────────────────────────────────────────────────────────────────────
   Chunker: token-bounded splitting (`splitByTokens`)
   ──────────────────────────────────────────────────────────────────── -/

/-- Total token count of a list of sentences.  -/
def sumTokens (tc : String → Nat) (l : List String) : Nat :=
  (l.map tc).sum

/-- The overlap-seeding loop of `splitByTokens`, on the reversed
sentence list: keep taking sentences while the accumulated token count
`acc` is still below the overlap target (the count is checked before
each take, so the final total may overshoot the target). -/
def takeOverlapRev (tc : String → Nat) (overlap : Nat) : List String → Nat → List String
  | [], _ => []
  | s :: rest, acc =>
    if acc < overlap then s :: takeOverlapRev tc overlap rest (acc + tc s) else []

/-- The sentences seeded into the next chunk when a chunk is closed:
trailing sentences of the closed chunk, taken greedily from the end
until the accumulated token count reaches the overlap target. -/
def takeOverlap (tc : String → Nat) (overlap : Nat) (sents : List String) : List String :=
  (takeOverlapRev tc overlap sents.reverse 0).reverse

/-- The accumulation loop of `splitByTokens`.  State: chunks already
closed (each a list of sentences, in emission order), the current chunk
and its running token count. -/
def splitGo (tc : String → Nat) (maxTokens overlap : Nat) :
    List String → List (List String) → List String → Nat → List (List String)
  | [], chunks, cur, _ =>
    if cur ≠ [] then chunks ++ [cur] else chunks
  | s :: rest, chunks, cur, curTok =>
    let sTok := tc s
    if curTok + sTok > maxTokens ∧ cur ≠ [] then
      let seed := if overlap > 0 then takeOverlap tc overlap cur else []
      splitGo tc maxTokens overlap rest (chunks ++ [cur]) (seed ++ [s]) (sumTokens tc seed + sTok)
    else
      splitGo tc maxTokens overlap rest chunks (cur ++ [s]) (curTok + sTok)

/-- `splitByTokens` at the granularity of sentence lists: the chunks it
builds before each is joined with single spaces. -/
def splitByTokensSents (tc : String → Nat) (maxTokens overlap : Nat) (sents : List String) :
    List (List String) :=
  splitGo tc maxTokens overlap sents [] [] 0

/-- `splitByTokens` from `pdf-parser.ts`: split `text` into sentence
groups respecting the token budget, then join each group with spaces. -/
def splitByTokens (tc : String → Nat) (text : String) (maxTokens overlap : Nat) : List String :=
  (splitByTokensSents tc maxTokens overlap (splitIntoSentences text)).map
    (String.intercalate " ")

/- ────────────────────────────────────────────────────────────────────
   Section extraction (`extractSections`)
   ──────────────────────────────────────────────────────────────────── -/

/-- A parsed section node of a document (`Section` in `pdf-parser.ts`):
identifier, title, own content, depth level, child sections. -/
inductive Section where
  | node (id title content : String) (level : Nat) (children : List Section)

/-- The separator class `[:\.\s]` of the section-heading regexes. -/
def isSepChar (c : Char) : Bool :=
  c = ':' || c = '.' || c.isWhitespace

/-- A roman-numeral character, case-insensitive (class `[IVXLCDM]`
under the `/i` flag of the chapter regex). -/
def isRomanChar (c : Char) : Bool :=
  let u := c.toUpper
  u = 'I' || u = 'V' || u = 'X' || u = 'L' || u = 'C' || u = 'D' || u = 'M'

/-- Match the tail `[:\.\s]+(.+)` of the heading regexes against the
remaining characters, with the regex backtracking that hands the last
separator character back to the capture group when nothing follows the
greedy separator run.  Returns the raw characters of the final capture
group. -/
def matchSepTitle (rest : List Char) : Option (List Char) :=
  let sep := rest.takeWhile isSepChar
  let after := rest.dropWhile isSepChar
  if sep = [] then none
  else if after ≠ [] then some after
  else if 2 ≤ sep.length then some [sep.getLast!]
  else none

/-- Match `^Chapter\s+(\d+|[IVXLCDM]+)[:\.\s]+(.+)` (case-insensitive)
against a trimmed line, returning the captured id and the trimmed title
(the source applies `.trim()` to the title capture). -/
def matchChapter (line : String) : Option (String × String) :=
  let cs := line.toList
  if (cs.take 7).map Char.toLower = "chapter".toList then
    let rest := cs.drop 7
    let ws := rest.takeWhile Char.isWhitespace
    let r1 := rest.dropWhile Char.isWhitespace
    if ws = [] then none
    else
      let digs := r1.takeWhile Char.isDigit
      let idChars := if digs ≠ [] then digs else r1.takeWhile isRomanChar
      let r2 := if digs ≠ [] then r1.dropWhile Char.isDigit else r1.dropWhile isRomanChar
      if idChars = [] then none
      else
        (matchSepTitle r2).map fun t => (String.mk idChars, jsTrim (String.mk t))
  else none

/-- Match a dotted numeric id `\d+\.\d+` (for `parts = 2`) or
`\d+\.\d+\.\d+` (for `parts = 3`) at the head of the characters,
returning the id characters and the remainder. -/
def matchDottedNum : Nat → List Char → Option (List Char × List Char)
  | 0, _ => none
  | 1, cs =>
    let digs := cs.takeWhile Char.isDigit
    if digs = [] then none else some (digs, cs.dropWhile Char.isDigit)
  | n + 2, cs =>
    let digs := cs.takeWhile Char.isDigit
    if digs = [] then none
    else
      match cs.dropWhile Char.isDigit with
      | '.' :: rest =>
        (matchDottedNum (n + 1) rest).map fun p => (digs ++ '.' :: p.1, p.2)
      | _ => none

/-- Match `^(\d+\.\d+)[:\.\s]+(.+)` against a trimmed line (the section
heading regex), returning the captured id and trimmed title. -/
def matchSection (line : String) : Option (String × String) :=
  match matchDottedNum 2 line.toList with
  | none => none
  | some (idChars, rest) =>
    (matchSepTitle rest).map fun t => (String.mk idChars, jsTrim (String.mk t))

/-- Match `^(\d+\.\d+\.\d+)[:\.\s]+(.+)` against a trimmed line (the
sub-section heading regex). -/
def matchSubSection (line : String) : Option (String × String) :=
  match matchDottedNum 3 line.toList with
  | none => none
  | some (idChars, rest) =>
    (matchSepTitle rest).map fun t => (String.mk idChars, jsTrim (String.mk t))

/-- Does the trimmed line match `^\d+\.\d+\.\d+` (the guard that stops a
three-level heading from being detected as a two-level section)? -/
def startsWithTripleNum (line : String) : Bool :=
  (matchDottedNum 3 line.toList).isSome

/-- A section node still being built: its heading data plus the children
attached so far (in order). -/
structure PartialNode where
  id : String
  title : String
  content : String
  children : List Section

/-- The mutable state of the `extractSections` scan: finished top-level
nodes, the currently open chapter / section / sub-section, and the
pending content buffer.  The source pushes each node into its parent at
creation time and then mutates it in place; because a node's parent
cannot change between the node's creation and the next heading, closing
a node into its current parent when the next heading (or the end of
input) arrives attaches it to the same parent in the same position. -/
structure ExtState where
  top : List Section
  curCh : Option PartialNode
  curSec : Option PartialNode
  curSub : Option PartialNode
  buf : List String

/-- `section.content += (section.content ? '\n' : '') + content` -/
def appendContent (old add : String) : String :=
  if old = "" then add else old ++ "\n" ++ add

/-- `flushContent`: join the buffer with newlines, trim, and append the
result (when non-empty) to the deepest currently open node.  Content
with no open node is discarded. -/
def flushContent (st : ExtState) : ExtState :=
  let c := jsTrim (String.intercalate "\n" st.buf)
  if c = "" then { st with buf := [] }
  else
    match st.curSub, st.curSec, st.curCh with
    | some sub, _, _ =>
      { st with curSub := some { sub with content := appendContent sub.content c }, buf := [] }
    | none, some sec, _ =>
      { st with curSec := some { sec with content := appendContent sec.content c }, buf := [] }
    | none, none, some ch =>
      { st with curCh := some { ch with content := appendContent ch.content c }, buf := [] }
    | none, none, none => { st with buf := [] }

/-- Close the open sub-section (if any) into its parent: the open
section, else the open chapter, else the top level. -/
def closeSub (st : ExtState) : ExtState :=
  match st.curSub with
  | none => st
  | some sub =>
    let node := Section.node sub.id sub.title sub.content 3 []
    match st.curSec, st.curCh with
    | some sec, _ => { st with curSec := some { sec with children := sec.children ++ [node] },
                               curSub := none }
    | none, some ch => { st with curCh := some { ch with children := ch.children ++ [node] },
                                 curSub := none }
    | none, none => { st with top := st.top ++ [node], curSub := none }

/-- Close the open section (and its open sub-section) into the open
chapter, else the top level. -/
def closeSec (st : ExtState) : ExtState :=
  let st := closeSub st
  match st.curSec with
  | none => st
  | some sec =>
    let node := Section.node sec.id sec.title sec.content 2 sec.children
    match st.curCh with
    | some ch => { st with curCh := some { ch with children := ch.children ++ [node] },
                           curSec := none }
    | none => { st with top := st.top ++ [node], curSec := none }

/-- Close the open chapter (and everything open below it) into the top
level. -/
def closeCh (st : ExtState) : ExtState :=
  let st := closeSec st
  match st.curCh with
  | none => st
  | some ch => { st with top := st.top ++ [Section.node ch.id ch.title ch.content 1 ch.children],
                         curCh := none }

/-- Process one line of the document, mirroring the body of the line
loop of `extractSections`: heading checks on the trimmed line in the
order chapter, section (guarded against three-level ids), sub-section;
otherwise accumulate non-empty trimmed lines into the content buffer. -/
def extractLine (st : ExtState) (line : String) : ExtState :=
  let trimmed := jsTrim line
  match matchChapter trimmed with
  | some (id, title) =>
    let st := closeCh (flushContent st)
    { st with curCh := some ⟨id, title, "", []⟩, curSec := none, curSub := none }
  | none =>
    match if startsWithTripleNum trimmed then none else matchSection trimmed with
    | some (id, title) =>
      let st := closeSec (flushContent st)
      { st with curSec := some ⟨id, title, "", []⟩, curSub := none }
    | none =>
      match matchSubSection trimmed with
      | some (id, title) =>
        let st := closeSub (flushContent st)
        { st with curSub := some ⟨id, title, "", []⟩ }
      | none =>
        if trimmed ≠ "" then { st with buf := st.buf ++ [trimmed] } else st

/-- `extractSections` from `pdf-parser.ts`: scan the document line by
line building the section forest. -/
def extractSections (text : String) : List Section :=
  let final := (splitOnChar (Char.ofNat 10) text).foldl extractLine ⟨[], none, none, none, []⟩
  (closeCh (flushContent final)).top

/- ────────────────────────────────────────────────────────────────────
   Chunking (`flattenSections`, `chunkDocument`)
   ──────────────────────────────────────────────────────────────────── -/

/-- A flattened content block: a node's own content plus its ancestor
path (`ContentBlock` in `pdf-parser.ts`). -/
structure ContentBlock where
  content : String
  hierarchy : List String
deriving DecidableEq

/-- `flattenSections`: pre-order flattening; a block is emitted only for
nodes with non-empty own content, and every node extends the path with
`` `${section.id} ${section.title}`.trim() ``. -/
def flattenSections : List Section → List String → List ContentBlock
  | [], _ => []
  | Section.node id title content _ children :: rest, parentPath =>
    let currentPath := parentPath ++ [jsTrim (id ++ " " ++ title)]
    (if content ≠ "" then [ContentBlock.mk content currentPath] else []) ++
      flattenSections children currentPath ++ flattenSections rest parentPath

/-- Chunking options (`ChunkOptions`); `none` selects the defaults
512 / 128 / 50. -/
structure ChunkOptions where
  maxTokens : Option Nat
  minTokens : Option Nat
  overlap : Option Nat
deriving DecidableEq

/-- The chunk record built at each emission site of `chunkDocument`:
its id is derived from the document id and the running chunk index, and
its token count is the token count of exactly the emitted text. -/
def mkChunk (docId : String) (idx : Nat) (text : String) (tok : Nat)
    (hier : List String) : SEBIChunk :=
  { chunk_id := docId ++ "-chunk-" ++ toString idx
    document_id := docId
    chunk_index := idx
    content := text
    tokens := tok
    section_hierarchy := hier
    embedding := none }

/-- Emit one chunk per text that passes the `keep` test (the
minimum-size filter), threading the running chunk index, which advances
only when a chunk is actually emitted. -/
def emitTexts (tc : String → Nat) (docId : String) (hier : List String)
    (keep : Nat → Bool) : List String → Nat → List SEBIChunk
  | [], _ => []
  | t :: rest, idx =>
    let tok := tc t
    if keep tok then mkChunk docId idx t tok hier :: emitTexts tc docId hier keep rest (idx + 1)
    else emitTexts tc docId hier keep rest idx

/-- The block loop of `chunkDocument`: a block within the token budget
becomes one chunk verbatim (subject to the minimum-size filter); an
oversized block is split by `splitByTokens` and each resulting text is
emitted with the block's hierarchy. -/
def emitBlocks (tc : String → Nat) (docId : String) (maxTokens minTokens overlap : Nat)
    (blocksLen : Nat) : List ContentBlock → Nat → List SEBIChunk
  | [], _ => []
  | b :: rest, idx =>
    let blockTokens := tc b.content
    if blockTokens ≤ maxTokens then
      if blockTokens ≥ minTokens ∨ blocksLen = 1 then
        mkChunk docId idx b.content blockTokens b.hierarchy ::
          emitBlocks tc docId maxTokens minTokens overlap blocksLen rest (idx + 1)
      else emitBlocks tc docId maxTokens minTokens overlap blocksLen rest idx
    else
      let texts := splitByTokens tc b.content maxTokens overlap
      let cs := emitTexts tc docId b.hierarchy
        (fun tok => tok ≥ minTokens ∨ texts.length = 1) texts idx
      cs ++ emitBlocks tc docId maxTokens minTokens overlap blocksLen rest (idx + cs.length)

/-- `chunkDocument` from `pdf-parser.ts`.  The `SEBIChunkSchema.parse`
wrapped around each constructed chunk is modelled as the identity:
every chunk the program constructs here satisfies the schema — its
`chunk_id` contains the literal `"-chunk-"` and so meets `min(1)`;
`document_id` is the id of the document being chunked, which in the
program has already passed `SEBIDocumentSchema`'s `min(1)`; the
ordinal and token count are naturals; and no embedding is attached at
this stage. -/
def chunkDocument (tc : String → Nat) (document : SEBIDocument) (options : ChunkOptions) :
    List SEBIChunk :=
  let maxTokens := options.maxTokens.getD 512
  let minTokens := options.minTokens.getD 128
  let overlap := options.overlap.getD 50
  let sections := extractSections document.content
  if sections.isEmpty then
    let textChunks := splitByTokens tc document.content maxTokens overlap
    emitTexts tc document.id []
      (fun tokens => ¬(tokens < minTokens ∧ textChunks.length > 1)) textChunks 0
  else
    let contentBlocks := flattenSections sections []
    emitBlocks tc document.id maxTokens minTokens overlap contentBlocks.length contentBlocks 0

/- ────────────────────────────────────────────────────────────────────
   Embedding client (`embedder.ts`)
   ──────────────────────────────────────────────────────────────────── -/

/-- Observable state of one `EmbeddingGenerator` instance: the bounded
vector cache (an association list in insertion order, oldest first,
mirroring the key order `NodeCache` reports) and the log of provider
calls issued so far, each recorded as the exact list of texts sent.
Cache TTL expiry is not modelled (no claim depends on wall-clock time).
Vectors are an abstract type `V`. -/
structure EmbedState (V : Type) where
  cache : List (String × V)
  calls : List (List String)
deriving DecidableEq

/-- Cache lookup by key (`this.cache.get(key)`). -/
def lookupCache {V : Type} (cache : List (String × V)) (key : String) : Option V :=
  (cache.find? (fun e => e.1 = key)).map (fun e => e.2)

/-- `setCacheEntry`: when the cache is full and the key is new, evict
the oldest entry, then insert or update the key.  An update keeps the
entry at its existing position, as object-key order does in
`NodeCache`. -/
def setCacheEntry {V : Type} (cacheSize : Nat) (cache : List (String × V)) (key : String)
    (value : V) : List (String × V) :=
  let evicted :=
    if cacheSize ≤ cache.length ∧ ¬(cache.any (fun e => e.1 = key)) then cache.drop 1
    else cache
  if evicted.any (fun e => e.1 = key) then
    evicted.map (fun e => if e.1 = key then (e.1, value) else e)
  else
    evicted ++ [(key, value)]

/-- `createBatches`: split a list into consecutive batches of
`batchSize` (the `start` offset of each batch is its position in the
concatenation).  The source loops forever on batch size `0`; that case
is unreachable (the configured size is ≥ 1) and returns `[]` here. -/
def createBatches {α : Type} : Nat → List α → List (List α)
  | _, [] => []
  | 0, _ :: _ => []
  | bs + 1, x :: xs =>
    (x :: xs).take (bs + 1) :: createBatches (bs + 1) ((x :: xs).drop (bs + 1))
termination_by _ l => l.length
decreasing_by
  simp only [List.length_drop, List.length_cons]
  omega

/-- `embedTextsChunk`: check the cache text by text; texts that miss
are sent to the provider in a single batch call (in their original
relative order, duplicates included), the fetched vectors are cached,
and every output slot is filled from the cache hit or from the fetched
vector of that slot's own text. -/
def embedTextsChunk {V : Type} (ck : String → String) (prov : String → V) (cacheSize : Nat)
    (texts : List String) (st : EmbedState V) : List V × EmbedState V :=
  let uncached := texts.filter (fun t => (lookupCache st.cache (ck t)).isNone)
  if uncached = [] then
    (texts.map (fun t => (lookupCache st.cache (ck t)).getD (prov t)), st)
  else
    let cache' := uncached.foldl (fun c t => setCacheEntry cacheSize c (ck t) (prov t)) st.cache
    let vectors := texts.map (fun t =>
      match lookupCache st.cache (ck t) with
      | some v => v
      | none => prov t)
    (vectors, { cache := cache', calls := st.calls ++ [uncached] })

/-- The batch loop of `embedBatch`: process the batch queue in FIFO
order, concatenating each batch's vectors (equivalently: writing them
into the output slots `start + idx`). -/
def embedBatchGo {V : Type} (ck : String → String) (prov : String → V) (cacheSize : Nat) :
    List (List String) → EmbedState V → List V × EmbedState V
  | [], st => ([], st)
  | b :: rest, st =>
    let r := embedTextsChunk ck prov cacheSize b st
    let r' := embedBatchGo ck prov cacheSize rest r.2
    (r.1 ++ r'.1, r'.2)

/-- `embedBatch` from `embedder.ts`: split the texts into batches of
`batchSize` and embed each batch via `embedTextsChunk`.  With a pure,
total provider every output slot is filled, so the missing-result guard
never fires. -/
def embedBatch {V : Type} (ck : String → String) (prov : String → V) (cacheSize batchSize : Nat)
    (texts : List String) (st : EmbedState V) : List V × EmbedState V :=
  embedBatchGo ck prov cacheSize (createBatches batchSize texts) st

/-- `embedText` from `embedder.ts`: trim, reject empty text before any
cache or provider interaction, then serve from the cache or fetch a
single embedding (one provider call logged as a one-text batch) and
cache it. -/
def embedText {V : Type} (ck : String → String) (prov : String → V) (cacheSize : Nat)
    (text : String) (st : EmbedState V) : Except String V × EmbedState V :=
  let trimmed := jsTrim text
  if trimmed = "" then (Except.error "Cannot embed empty text", st)
  else
    match lookupCache st.cache (ck trimmed) with
    | some v => (Except.ok v, st)
    | none =>
      let v := prov trimmed
      (Except.ok v,
        { cache := setCacheEntry cacheSize st.cache (ck trimmed) v
          calls := st.calls ++ [[trimmed]] })

/-- `executeWithRetry`, as a loop over the remaining attempt budget:
`fn` is the fallible provider call, indexed by the 1-based attempt
number.  Returns the outcome (the last error when the budget is
exhausted, `none` only for a zero budget) together with the list of
backoff delays awaited, in milliseconds: the source computes
`2 ** attempt * 100` and also sleeps after the final failed attempt. -/
def retryLoop {E A : Type} (fn : Nat → Except E A) :
    Nat → Nat → Option E → Except (Option E) A × List Nat
  | 0, _, last => (Except.error last, [])
  | fuel + 1, attempt, _ =>
    match fn attempt with
    | Except.ok a => (Except.ok a, [])
    | Except.error e =>
      let rest := retryLoop fn fuel (attempt + 1) (some e)
      (rest.1, 2 ^ attempt * 100 :: rest.2)

/-- `executeWithRetry` from `embedder.ts` with its default budget of 5
attempts. -/
def executeWithRetry {E A : Type} (fn : Nat → Except E A) (attempts : Nat) :
    Except (Option E) A × List Nat :=
  retryLoop fn attempts 1 none

/- ────────────────────────────────────────────────────────────────────
   Vector-store manager (`qdrant-client.ts`)
   ──────────────────────────────────────────────────────────────────── -/

/-- A raw chunk as read back from a stored payload, before schema
validation: the numeric fields are unconstrained integers, and the
optional embedding (stored with the chunk by `buildPayload`) is
unconstrained in length. -/
structure RawChunk where
  chunk_id : String
  document_id : String
  chunk_index : Int
  content : String
  tokens : Int
  section_hierarchy : List String
  embedding : Option (List ℚ)
deriving DecidableEq

/-- `SEBIChunkSchema.safeParse` from `src/types/sebi-document.ts`:
`chunk_id` and `document_id` are `min(1)` strings, `chunk_index` and
`tokens` are non-negative integers, `content` and `section_hierarchy`
are unconstrained, and the optional `embedding` must have exactly 3072
entries when present.  A valid raw chunk converts to a `SEBIChunk`. -/
def chunkSafeParse (c : RawChunk) : Option SEBIChunk :=
  if c.chunk_id ≠ "" ∧ c.document_id ≠ "" ∧ 0 ≤ c.chunk_index ∧ 0 ≤ c.tokens ∧
      Option.all (fun v => v.length == 3072) c.embedding = true then
    some ⟨c.chunk_id, c.document_id, c.chunk_index.toNat, c.content, c.tokens.toNat,
      c.section_hierarchy, c.embedding⟩
  else none

/-- `z.string().url()` validity, as Zod checks it via `new URL(...)`:
modelled as requiring a leading scheme — an ASCII letter followed by
letters, digits, `+`, `-` or `.` — terminated by a colon.  This
approximation agrees with `new URL` on every URL-shaped and every
plainly invalid string this development considers; in particular the
empty string and scheme-less strings are invalid, and
`https://...` / `mailto:...` forms are valid. -/
def isValidUrl (s : String) : Bool :=
  match s.toList with
  | [] => false
  | c :: rest =>
    c.isAlpha &&
      (match rest.dropWhile (fun ch => ch.isAlphanum || ch = '+' || ch = '-' || ch = '.') with
       | ':' :: _ => true
       | _ => false)

/-- `SEBIDocumentSchema.parse` from `src/types/sebi-document.ts`:
`id`, `circular_id` and `title` are `min(1)` strings, `category` must
be a member of the fixed enumeration, `url` must be a valid URL, and
`content` is an unconstrained string (no minimum); `chapter`,
`section` and `metadata` are unconstrained, and the `z.coerce.date()`
on `date` cannot fail on the already-constructed `Date` objects that
reach this parse.  Like Zod's `.parse`, failure is an exception; one
representative message stands for the collected `ZodError`. -/
def docSchemaParse (d : SEBIDocument) : Except String SEBIDocument :=
  if d.id = "" then Except.error "Invalid document: id must be non-empty"
  else if d.circular_id = "" then Except.error "Invalid document: circular_id must be non-empty"
  else if d.title = "" then Except.error "Invalid document: title must be non-empty"
  else if d.category ∉ CATEGORY_KEYS then Except.error ("Invalid category: " ++ d.category)
  else if ¬ isValidUrl d.url then Except.error "Invalid document: url must be a valid URL"
  else Except.ok d

/-- The stored document projection inside a payload
(`PayloadDocumentShape`): every field optional. -/
structure PayloadDocShape where
  id : Option String
  circular_id : Option String
  title : Option String
  date : Option String
  category : Option String
  chapter : Option String
  «section» : Option String
  content : Option String
  url : Option String
deriving DecidableEq

/-- A stored point payload (`PayloadShape`). -/
structure PayloadShape where
  chunk : Option RawChunk
  document : Option PayloadDocShape
  circular_id : Option String
  category : Option String
  date : Option String
  chapter : Option String
  url : Option String
  title : Option String
deriving DecidableEq

/-- A raw search hit / scrolled point: id, optional score, optional
payload. -/
structure Hit where
  id : String
  score : Option ℚ
  payload : Option PayloadShape
deriving DecidableEq

/-- A reconstructed search result (`SearchResult`): relevance score,
the passage, and the best-effort reconstructed owning document. -/
structure SearchResult where
  score : ℚ
  chunk : SEBIChunk
  document : SEBIDocument
deriving DecidableEq

/-- `payloadToDocument`: assemble a document candidate from the stored
document projection, payload-level fallbacks and synthesized defaults,
then validate it with the throwing `SEBIDocumentSchema.parse`.
`new Date(...)` fall-back-to-now normalization is not modelled: the
date string is carried through unchanged. -/
def payloadToDocument (payload : PayloadShape) (chunk : SEBIChunk) :
    Except String SEBIDocument :=
  let rawDocument := payload.document.getD ⟨none, none, none, none, none, none, none, none, none⟩
  let dateSource := rawDocument.date.getD (payload.date.getD "1970-01-01T00:00:00.000Z")
  docSchemaParse
    { id := rawDocument.id.getD chunk.document_id
      circular_id := rawDocument.circular_id.getD (payload.circular_id.getD chunk.document_id)
      title := rawDocument.title.getD (payload.title.getD ("SEBI Circular " ++ chunk.document_id))
      date := dateSource
      category := rawDocument.category.getD (payload.category.getD "general")
      chapter := match rawDocument.chapter with
        | some c => some c
        | none => match payload.chapter with
          | some c => some c
          | none => chunk.section_hierarchy.head?
      «section» := match rawDocument.«section» with
        | some s => some s
        | none => chunk.section_hierarchy.getLast?
      content := rawDocument.content.getD chunk.content
      url := rawDocument.url.getD (payload.url.getD "") }

/-- `mapHitToResult`: a missing payload or missing chunk yields no
result (skipped); a chunk that fails `safeParse` is logged and skipped;
a document reconstruction failure (`SEBIDocumentSchema.parse` throwing
inside `payloadToDocument`) is not caught and escapes as an error. -/
def mapHitToResult (hit : Hit) : Except String (Option SearchResult) :=
  match hit.payload with
  | none => Except.ok none
  | some payload =>
    match payload.chunk with
    | none => Except.ok none
    | some raw =>
      match chunkSafeParse raw with
      | none => Except.ok none
      | some chunk =>
        match payloadToDocument payload chunk with
        | Except.error e => Except.error e
        | Except.ok document => Except.ok (some ⟨(hit.score.getD 0), chunk, document⟩)

/-- The result-reconstruction pipeline shared by `semanticSearch`,
`keywordSearch` (via `fetchAllPoints`) and `hybridSearch`:
`hits.map(hit => this.mapHitToResult(hit)).filter(Boolean)` — an
exception from any single hit aborts the whole mapping. -/
def mapHits (hits : List Hit) : Except String (List SearchResult) :=
  match hits with
  | [] => Except.ok []
  | h :: rest =>
    match mapHitToResult h with
    | Except.error e => Except.error e
    | Except.ok r =>
      match mapHits rest with
      | Except.error e => Except.error e
      | Except.ok rs =>
        Except.ok (match r with | some x => x :: rs | none => rs)

/- ────────────────────────────────────────────────────────────────────
   Reciprocal Rank Fusion (`reciprocalRankFusion`)
   ──────────────────────────────────────────────────────────────────── -/

/-- The RRF constant (`RRF_K = 60`); scores are modelled in ℚ (the
JavaScript arithmetic on these small reciprocals is exact enough that
the claims are about the real-number algebra, per the spec's formula
`1/(k + rank + 1)`). -/
def RRF_K : ℚ := 60

/-- The fusion key: `` `${result.document.id}-${result.chunk.chunk_id}` ``. -/
def rrfKey (r : SearchResult) : String :=
  r.document.id ++ "-" ++ r.chunk.chunk_id

/-- One step of the fusion `Map`: add `1/(k + index + 1)` to the entry
keyed by `rrfKey result`, creating the entry (at the end, preserving
insertion order) on first appearance.  Entries carry the first-seen
result alongside the accumulated score. -/
def rrfInsert (k : ℚ) (index : Nat) (result : SearchResult)
    (scores : List (String × SearchResult × ℚ)) : List (String × SearchResult × ℚ) :=
  let key := rrfKey result
  let increment := 1 / (k + index + 1)
  if scores.any (fun e => e.1 = key) then
    scores.map (fun e => if e.1 = key then (e.1, e.2.1, e.2.2 + increment) else e)
  else
    scores ++ [(key, result, increment)]

/-- Process one ranked result list, ranks counted from `index`. -/
def rrfProcess (k : ℚ) : List SearchResult → Nat → List (String × SearchResult × ℚ) →
    List (String × SearchResult × ℚ)
  | [], _, scores => scores
  | r :: rest, index, scores => rrfProcess k rest (index + 1) (rrfInsert k index r scores)

/-- The accumulation phase of `reciprocalRankFusion`: fold all ranked
lists (0-based ranks within each list) into the score map. -/
def rrfAccum (k : ℚ) (resultSets : List (List SearchResult)) :
    List (String × SearchResult × ℚ) :=
  resultSets.foldl (fun scores results => rrfProcess k results 0 scores) []

/-- The fused score the map assigns to a key (`0` when absent). -/
def rrfScoreOf (scores : List (String × SearchResult × ℚ)) (key : String) : ℚ :=
  ((scores.find? (fun e => e.1 = key)).map (fun e => e.2.2)).getD 0

/-- `reciprocalRankFusion` from `qdrant-client.ts`: accumulate, sort by
fused score descending (stably, so ties keep first-appearance order),
truncate to `limit`, and write the fused score into each result. -/
def reciprocalRankFusion (resultSets : List (List SearchResult)) (limit : Nat) :
    List SearchResult :=
  (((rrfAccum RRF_K resultSets).mergeSort (fun a b => decide (b.2.2 ≤ a.2.2))).take limit).map
    (fun e => { e.2.1 with score := e.2.2 })

/-- The 0-based rank of the first entry of `l` whose key is `key`. -/
def rankOf (key : String) (l : List SearchResult) : Option Nat :=
  l.findIdx? (fun r => rrfKey r = key)

/- ────────────────────────────────────────────────────────────────────
   Upsert (`upsertChunks`)
   ──────────────────────────────────────────────────────────────────── -/

/-- One point sent to the store: the chunk id and the vector.  The
payload built by `buildPayload` rides along in the source but is
orthogonal to every claim about `upsertChunks`, so it is not carried in
the event log. -/
def buildPoint (p : SEBIChunk × List ℚ) : String × List ℚ :=
  (p.1.chunk_id, p.2)

/-- The batch loop of `upsertChunks` over the zipped
(chunk, embedding) pairs: one store upsert per batch of 100, counting
each batch's size into the running success count.  The store itself is
modelled as always acknowledging (store-retry exhaustion is outside
every claim about this function). -/
def upsertGo : List (SEBIChunk × List ℚ) → Nat × List (List (String × List ℚ))
  | [] => (0, [])
  | p :: ps =>
    let batch := (p :: ps).take 100
    let rest := upsertGo ((p :: ps).drop 100)
    (batch.length + rest.1, batch.map buildPoint :: rest.2)
termination_by pairs => pairs.length
decreasing_by
  simp only [List.length_drop, List.length_cons]
  omega

/-- `upsertChunks` from `qdrant-client.ts`: reject mismatched lengths
before any store interaction, otherwise upsert in batches of 100 and
return the success count.  The second component is the ordered list of
upsert calls issued to the store. -/
def upsertChunks (chunks : List SEBIChunk) (embeddings : List (List ℚ)) :
    Except String Nat × List (List (String × List ℚ)) :=
  if chunks.length ≠ embeddings.length then
    (Except.error "Chunks and embeddings length mismatch", [])
  else
    let r := upsertGo (chunks.zip embeddings)
    (Except.ok r.1, r.2)

/- ────────────────────────────────────────────────────────────────────
   Ingestion orchestrator (`ingest.ts`)
   ──────────────────────────────────────────────────────────────────── -/

/-- A network interaction issued during `ingestPDF`, in order:
collection initialization (a vector-store call), an embedding-provider
batch (with the number of texts embedded), a vector-store upsert (with
the number of points). -/
inductive NetEvent where
  | qdrantInit
  | embedCall (texts : Nat)
  | qdrantUpsert (points : Nat)
deriving DecidableEq

/-- A metadata override (`Partial<SEBIDocument>`): absent fields leave
the parsed document's fields unchanged under the object spread in
`mergeMetadata`. -/
structure SEBIDocumentPatch where
  id : Option String
  circular_id : Option String
  title : Option String
  date : Option String
  category : Option String
  content : Option String
  url : Option String
deriving DecidableEq

/-- `mergeMetadata`: spread the overrides over the document, then
re-validate with the throwing `SEBIDocumentSchema.parse`. -/
def mergeMetadata (document : SEBIDocument) (overrides : Option SEBIDocumentPatch) :
    Except String SEBIDocument :=
  let o := overrides.getD ⟨none, none, none, none, none, none, none⟩
  docSchemaParse
    { id := o.id.getD document.id
      circular_id := o.circular_id.getD document.circular_id
      title := o.title.getD document.title
      date := o.date.getD document.date
      category := o.category.getD document.category
      content := o.content.getD document.content
      url := o.url.getD document.url
      chapter := document.chapter
      «section» := document.«section» }

/-- `validateMetadata` from `ingest.ts`, applied (as in `ingestPDF`) to
the full merged document.  JavaScript truthiness makes the
`!metadata.circular_id` and `!metadata.category` guards fire exactly on
empty strings here, and the `!metadata.date` guard never fires (a
`Date` object is always truthy), so it has no error branch in this
model. -/
def validateMetadata (metadata : SEBIDocument) : Except String Unit :=
  if metadata.circular_id = "" then Except.error "Missing circular_id in metadata"
  else if metadata.category = "" then Except.error "Missing category in metadata"
  else if metadata.category ∉ CATEGORY_KEYS then
    Except.error ("Invalid category: " ++ metadata.category)
  else Except.ok ()

/-- The per-document ingestion summary (`IngestionSummary`; path and
duration omitted). -/
structure IngestionSummary where
  circularId : String
  chunkCount : Nat
  embeddingCount : Nat
deriving DecidableEq

/-- `ingestPDF` from `ingest.ts`, as a network-event trace plus
outcome.  The source's order of operations: resolve the path, then
`await this.qdrant.initializeCollection()` (a vector-store call), then
read and parse the PDF (`parsed` is the parser's outcome, an external
input here), then merge and validate metadata, then chunk, embed and
upsert.  Embedding and upsert are summarised as one event each carrying
the chunk count (at least one provider call and one store upsert happen
whenever the chunk list is non-empty); their counts mirror
`embedChunks` and `upsertChunks` returning one vector per chunk. -/
def ingestPDF (tc : String → Nat) (parsed : Except String SEBIDocument)
    (overrides : Option SEBIDocumentPatch) (options : ChunkOptions) :
    List NetEvent × Except String IngestionSummary :=
  let initEvents := [NetEvent.qdrantInit]
  match parsed with
  | Except.error e => (initEvents, Except.error e)
  | Except.ok document =>
    match mergeMetadata document overrides with
    | Except.error e => (initEvents, Except.error e)
    | Except.ok merged =>
      match validateMetadata merged with
      | Except.error e => (initEvents, Except.error e)
      | Except.ok _ =>
        let chunks := chunkDocument tc merged options
        if chunks.length = 0 then
          (initEvents, Except.error ("No chunks produced for " ++ merged.circular_id))
        else
          (initEvents ++ [NetEvent.embedCall chunks.length, NetEvent.qdrantUpsert chunks.length],
            Except.ok ⟨merged.circular_id, chunks.length, chunks.length⟩)

/- ────────────────────────────────────────────────────────────────────
   Concrete instances used by witnesses and counterexamples
   ──────────────────────────────────────────────────────────────────── -/

/-- A concrete instantiation of the abstract token counter for concrete
runs: the number of whitespace-separated words.  (The chunker is
parametric in the tokenizer adapter; concrete runs may instantiate it
with any pure counter.) -/
def tcWords : String → Nat :=
  fun s => ((splitOnChar ' ' s).filter (· ≠ "")).length

/-- A concrete deterministic provider over `V = ℕ`. -/
def provNat : String → Nat :=
  fun s => if s = "a" then 1 else 2

/-- A concrete unstructured document (no section markers). -/
def docW : SEBIDocument :=
  ⟨"d2", "c2", "T", "2024-01-15", "general",
    "Hello world. This is plain. More text here. Even more words now.", "u", none, none⟩

/-- Concrete chunk options: `maxTokens = 6`, `minTokens = 1`,
`overlap = 2`. -/
def optsW : ChunkOptions :=
  ⟨some 6, some 1, some 2⟩

/-- A concrete well-formed parsed document for ingestion runs. -/
def docFix : SEBIDocument :=
  ⟨"doc-001", "SEBI/HO/IMD/2024/001", "Sample Circular", "2024-01-01", "mutual_funds",
    "Some content here.", "https://example.org", none, none⟩

/-- A metadata override that empties `circular_id`, making
`validateMetadata` fail after a successful schema merge. -/
def patchEmptyCirc : SEBIDocumentPatch :=
  ⟨none, some "", none, none, none, none, none⟩

/-- A structurally valid raw chunk read back from a payload. -/
def rawChunkFix : RawChunk :=
  ⟨"c1", "d1", 0, "some passage text", 3, [], none⟩

/-- A payload whose chunk is valid, whose payload-level category is a
member of the enumeration, and whose payload-level url is a valid URL:
reconstruction succeeds. -/
def goodPayloadFix : PayloadShape :=
  ⟨some rawChunkFix, none, none, some "general", none, none,
    some "https://www.sebi.gov.in/c1", none⟩

/-- A payload like `goodPayloadFix` except its payload-level category
lies outside the fixed enumeration: document reconstruction throws. -/
def badPayloadFix : PayloadShape :=
  ⟨some rawChunkFix, none, none, some "bogus", none, none,
    some "https://www.sebi.gov.in/c1", none⟩

/-- A hit carrying `goodPayloadFix`. -/
def goodHitFix : Hit :=
  ⟨"h1", some 1, some goodPayloadFix⟩

/-- A hit carrying `badPayloadFix`. -/
def badHitFix : Hit :=
  ⟨"h2", some 1, some badPayloadFix⟩

/-- A concrete search result for fusion runs (key `"dA-cA"`). -/
def resA : SearchResult :=
  ⟨0, ⟨"cA", "dA", 0, "alpha text", 1, [], none⟩,
    ⟨"dA", "ciA", "tA", "2024-01-01", "general", "alpha text", "", none, none⟩⟩

/-- A concrete search result for fusion runs (key `"dB-cB"`). -/
def resB : SearchResult :=
  ⟨0, ⟨"cB", "dB", 1, "beta text", 1, [], none⟩,
    ⟨"dB", "ciB", "tB", "2024-01-01", "general", "beta text", "", none, none⟩⟩

/- ────────────────────────────────────────────────────────────────────
   Theorems
   ──────────────────────────────────────────────────────────────────── -/

/-- C5 (counterexample): in a run where every attempt fails, the
backoff delays actually awaited are 200, 400, 800, 1600, 3200 ms — not
a sequence starting at a 100 ms base as the claim states (neither the
four between-attempt delays `[100, 200, 400, 800]` nor a five-delay
reading `[100, 200, 400, 800, 1600]`). -/
theorem executeWithRetry_delays_counterexample :
    (executeWithRetry (fun k => (Except.error k : Except Nat Unit)) 5).2 =
      [200, 400, 800, 1600, 3200] ∧
    (executeWithRetry (fun k => (Except.error k : Except Nat Unit)) 5).2 ≠
      [100, 200, 400, 800] ∧
    (executeWithRetry (fun k => (Except.error k : Except Nat Unit)) 5).2 ≠
      [100, 200, 400, 800, 1600] := by
  refine ⟨rfl, by decide, by decide⟩

/-- C5 (amended): every provider call is retried up to 5 total
attempts; the backoff delay after failed attempt `k` is
`2 ^ k * 100` ms, i.e. 200 ms doubling per attempt (with a final
3200 ms sleep after the fifth failure), and the error finally thrown is
the error of the last (5th) attempt. -/
theorem executeWithRetry_five_failures {E A : Type} (fn : Nat → Except E A) (es : Nat → E)
    (h : ∀ k, 1 ≤ k → k ≤ 5 → fn k = Except.error (es k)) :
    executeWithRetry fn 5 = (Except.error (some (es 5)), [200, 400, 800, 1600, 3200]) := by
  have h1 := h 1 (by norm_num) (by norm_num)
  have h2 := h 2 (by norm_num) (by norm_num)
  have h3 := h 3 (by norm_num) (by norm_num)
  have h4 := h 4 (by norm_num) (by norm_num)
  have h5 := h 5 (by norm_num) (by norm_num)
  simp [executeWithRetry, retryLoop, h1, h2, h3, h4, h5]

/-- C5 (witness): the amended retry behaviour at a concrete
always-failing call whose attempt-indexed errors are the attempt
numbers themselves. -/
theorem executeWithRetry_five_failures_witness :
    executeWithRetry (fun k => (Except.error k : Except Nat Unit)) 5 =
      (Except.error (some 5), [200, 400, 800, 1600, 3200]) :=
  executeWithRetry_five_failures (fun k => (Except.error k : Except Nat Unit))
    (fun k => k) (fun _ _ _ => rfl)

/-- C9: `embedText` rejects empty or whitespace-only input with
`"Cannot embed empty text"` leaving the state untouched (no cache write
and no provider call), and otherwise operates on the trimmed text: the
cache is probed at the trimmed text's key, a hit is returned with no
provider call, and a miss calls the provider with exactly the trimmed
text and caches the result under the trimmed text's key. -/
theorem embedText_empty_guard_and_trim {V : Type} (ck : String → String) (prov : String → V)
    (cacheSize : Nat) (text : String) (st : EmbedState V) :
    (jsTrim text = "" →
      embedText ck prov cacheSize text st = (Except.error "Cannot embed empty text", st)) ∧
    (∀ v, jsTrim text ≠ "" → lookupCache st.cache (ck (jsTrim text)) = some v →
      embedText ck prov cacheSize text st = (Except.ok v, st)) ∧
    (jsTrim text ≠ "" → lookupCache st.cache (ck (jsTrim text)) = none →
      embedText ck prov cacheSize text st =
        (Except.ok (prov (jsTrim text)),
          ⟨setCacheEntry cacheSize st.cache (ck (jsTrim text)) (prov (jsTrim text)),
            st.calls ++ [[jsTrim text]]⟩)) := by
  refine ⟨fun h => ?_, fun v hne hhit => ?_, fun hne hmiss => ?_⟩
  · simp [embedText, h]
  · simp [embedText, hne, hhit]
  · simp [embedText, hne, hmiss]

/-- C9 (witness): the guard and the trim behaviour at concrete inputs:
a whitespace-only text errors with the state unchanged, and `" a "` is
embedded as `"a"` with one provider call carrying `"a"`. -/
theorem embedText_empty_guard_and_trim_witness :
    embedText id provNat 1000 "   " (⟨[], []⟩ : EmbedState Nat) =
      (Except.error "Cannot embed empty text", ⟨[], []⟩) ∧
    embedText id provNat 1000 " a " (⟨[], []⟩ : EmbedState Nat) =
      (Except.ok (provNat "a"), ⟨setCacheEntry 1000 [] (id "a") (provNat "a"), [["a"]]⟩) :=
  ⟨(embedText_empty_guard_and_trim id provNat 1000 "   " ⟨[], []⟩).1 (by decide),
    (embedText_empty_guard_and_trim id provNat 1000 " a " ⟨[], []⟩).2.2 (by decide) rfl⟩

/-- The success count accumulated by the upsert batch loop is the total
number of points. -/
theorem upsertGo_count : ∀ pairs : List (SEBIChunk × List ℚ), (upsertGo pairs).1 = pairs.length
  | [] => by simp [upsertGo]
  | p :: ps => by
    rw [upsertGo]
    simp only [List.length_take, List.length_cons]
    have := upsertGo_count ((p :: ps).drop 100)
    simp only [List.length_drop, List.length_cons] at this
    simp only [this]
    omega
termination_by pairs => pairs.length
decreasing_by
  simp only [List.length_drop, List.length_cons]
  omega

/-- C10: `upsertChunks` throws `"Chunks and embeddings length
mismatch"` on differing lengths before issuing any store upsert (the
event log stays empty, so the store is untouched), and on matching
lengths returns a count equal to the number of chunks passed in. -/
theorem upsertChunks_guard_and_count :
    (∀ (chunks : List SEBIChunk) (embeddings : List (List ℚ)),
      chunks.length ≠ embeddings.length →
      upsertChunks chunks embeddings = (Except.error "Chunks and embeddings length mismatch", [])) ∧
    (∀ (chunks : List SEBIChunk) (embeddings : List (List ℚ)),
      chunks.length = embeddings.length →
      (upsertChunks chunks embeddings).1 = Except.ok chunks.length) := by
  constructor
  · intro chunks embeddings h
    simp [upsertChunks, h]
  · intro chunks embeddings h
    simp only [upsertChunks, h, upsertGo_count, List.length_zip, ne_eq, not_true_eq_false,
      if_false, ite_false]
    simp [h]

/-- C10 (witness): the guard and the count at concrete inputs: a
1-chunk / 2-embedding mismatch errors with no store call, and two
chunks with two embeddings upsert with count 2. -/
theorem upsertChunks_guard_and_count_witness :
    upsertChunks [] [[1]] = (Except.error "Chunks and embeddings length mismatch", []) ∧
    (upsertChunks [mkChunk "d" 0 "x" 1 [], mkChunk "d" 1 "y" 1 []] [[1], [2]]).1 =
      Except.ok 2 :=
  ⟨upsertChunks_guard_and_count.1 [] [[1]] (by decide),
    upsertChunks_guard_and_count.2 [mkChunk "d" 0 "x" 1 [], mkChunk "d" 1 "y" 1 []]
      [[1], [2]] rfl⟩

unseal createBatches in
/-- C1 (counterexample): `embedBatch(["a","a","b"])` on a fresh cache
issues its single provider batch call covering `["a","a","b"]`, not the
deduplicated `["a","b"]` the claim states: the per-text cache check
happens before any vector is fetched or cached, so the duplicate `"a"`
also misses and is sent. -/
theorem embedBatch_dedup_counterexample :
    ¬ (embedBatch id provNat 1000 100 ["a", "a", "b"] ⟨[], []⟩).2.calls = [["a", "b"]] := by
  decide

unseal createBatches in
/-- C1 (amended): `embedBatch(["a","a","b"])` with a fresh cache
triggers exactly one provider batch call, that call covers the
cache-missing occurrences `["a","a","b"]` in input order (duplicates
within one batch are each sent, not collapsed), and the returned list
is `[v_a, v_a, v_b]` — order and one-to-one correspondence with the
input are preserved, and both `"a"` slots carry the provider's vector
for `"a"`. -/
theorem embedBatch_duplicate_scenario :
    embedBatch id provNat 1000 100 ["a", "a", "b"] ⟨[], []⟩ =
      ([provNat "a", provNat "a", provNat "b"],
        ⟨[("a", provNat "a"), ("b", provNat "b")], [["a", "a", "b"]]⟩) := by
  decide

/-- A document accepted by `SEBIDocumentSchema.parse` is returned
unchanged and satisfies the checks `validateMetadata` re-tests. -/
theorem docSchemaParse_ok {d d' : SEBIDocument} (h : docSchemaParse d = Except.ok d') :
    d' = d ∧ d.circular_id ≠ "" ∧ d.category ∈ CATEGORY_KEYS := by
  rw [docSchemaParse] at h
  split_ifs at h with h1 h2 h3 h4 h5
  · exact ⟨(Except.ok.inj h).symm, h2, h4⟩

/-- C3 (counterexample): an ingestion run whose metadata carries an
empty `circular_id` raises its validation error (the `ZodError` from
`SEBIDocumentSchema`'s `min(1)` check inside `mergeMetadata`) only
*after* the vector-store collection-initialization call: `ingestPDF`
awaits `qdrant.initializeCollection()` before reading, parsing,
merging or validating anything, so the validation error is *not*
raised before any network call. -/
theorem ingestPDF_network_before_validation_counterexample :
    ingestPDF tcWords (Except.ok docFix) (some patchEmptyCirc) ⟨none, none, none⟩ =
      ([NetEvent.qdrantInit],
        Except.error "Invalid document: circular_id must be non-empty") ∧
    [NetEvent.qdrantInit] ≠ ([] : List NetEvent) := by
  exact ⟨by decide, by decide⟩

/-- C3 (amended): validation errors are raised before any
embedding-provider call and before any vector-store upsert — the only
network call preceding them is the collection-initialization call that
`ingestPDF` issues first.  In the real flow these errors surface from
`SEBIDocumentSchema.parse` inside `mergeMetadata` (missing/empty
required fields, invalid category, invalid url); after a successful
schema merge, the subsequent `validateMetadata` step can never fail —
its guards are subsumed by the schema. -/
theorem ingestPDF_validation_before_embedding :
    (∀ (tc : String → Nat) (document : SEBIDocument) (overrides : Option SEBIDocumentPatch)
      (options : ChunkOptions) (e : String),
      mergeMetadata document overrides = Except.error e →
      ingestPDF tc (Except.ok document) overrides options =
        ([NetEvent.qdrantInit], Except.error e)) ∧
    (∀ (document merged : SEBIDocument) (overrides : Option SEBIDocumentPatch),
      mergeMetadata document overrides = Except.ok merged →
      validateMetadata merged = Except.ok ()) := by
  constructor
  · intro tc document overrides options e hm
    simp [ingestPDF, hm]
  · intro document merged overrides hm
    rw [mergeMetadata] at hm
    obtain ⟨heq, hcirc, hcat⟩ := docSchemaParse_ok hm
    subst heq
    have hcatne : ∀ s : String, s ∈ CATEGORY_KEYS → s ≠ "" := by
      intro s hs hc
      subst hc
      exact absurd hs (by decide)
    rw [validateMetadata, if_neg hcirc, if_neg (hcatne _ hcat), if_neg (not_not.mpr hcat)]

/-- C3 (witness): the amended ordering at the concrete failing run
(empty `circular_id` override), and the dead `validateMetadata` step
at a concrete successful merge. -/
theorem ingestPDF_validation_before_embedding_witness :
    ingestPDF tcWords (Except.ok docFix) (some patchEmptyCirc) ⟨none, none, none⟩ =
      ([NetEvent.qdrantInit],
        Except.error "Invalid document: circular_id must be non-empty") ∧
    validateMetadata docFix = Except.ok () :=
  ⟨ingestPDF_validation_before_embedding.1 tcWords docFix (some patchEmptyCirc)
      ⟨none, none, none⟩ "Invalid document: circular_id must be non-empty" (by decide),
    ingestPDF_validation_before_embedding.2 docFix docFix none (by decide)⟩

/-- C4 (counterexample): a query over one reconstructible hit and one
hit whose payload carries a category outside the fixed enumeration does
not return the remaining valid result — the document-schema failure
inside `payloadToDocument` (a throwing `parse`, unlike the guarded
`safeParse` used for the chunk) escapes `mapHitToResult` and fails the
whole query. -/
theorem mapHits_propagation_counterexample :
    (mapHitToResult goodHitFix).isOk = true ∧
    mapHits [goodHitFix, badHitFix] = Except.error "Invalid category: bogus" := by
  exact ⟨by decide, by decide⟩

/-- C4 (amended): a raw stored point with a missing payload or a
missing chunk is skipped, and a chunk that fails structural validation
is skipped and logged; the overall query returns the remaining valid
results whenever every hit's *document* reconstruction also succeeds —
but a document reconstruction failure (e.g. a stored category outside
the enumeration) is propagated to the caller as a query failure. -/
theorem mapHits_skip_and_propagate :
    (∀ hit : Hit, hit.payload = none → mapHitToResult hit = Except.ok none) ∧
    (∀ (hit : Hit) (payload : PayloadShape), hit.payload = some payload →
      payload.chunk = none → mapHitToResult hit = Except.ok none) ∧
    (∀ (hit : Hit) (payload : PayloadShape) (raw : RawChunk), hit.payload = some payload →
      payload.chunk = some raw → chunkSafeParse raw = none →
      mapHitToResult hit = Except.ok none) ∧
    (∀ hits : List Hit, (∀ h ∈ hits, (mapHitToResult h).isOk) →
      mapHits hits =
        Except.ok (hits.filterMap (fun h => ((mapHitToResult h).toOption).bind id))) := by
  refine ⟨fun hit h => ?_, fun hit payload hp hc => ?_, fun hit payload raw hp hc hs => ?_, ?_⟩
  · simp [mapHitToResult, h]
  · simp [mapHitToResult, hp, hc]
  · simp [mapHitToResult, hp, hc, hs]
  · intro hits hok
    induction hits with
    | nil => rfl
    | cons h rest ih =>
      have hh := hok h (List.mem_cons_self h rest)
      have hrest := ih (fun g hg => hok g (List.mem_cons_of_mem h hg))
      rw [mapHits]
      match hm : mapHitToResult h with
      | Except.error e => rw [hm] at hh; simp [Except.isOk, Except.toBool] at hh
      | Except.ok r =>
        rw [hrest]
        cases r <;> simp [List.filterMap_cons, hm, Except.toOption]

/-- C4 (witness): the skip behaviour and the success path at concrete
inputs: a payload-less hit maps to no result, and a singleton valid-hit
query returns its reconstructed result list. -/
theorem mapHits_skip_and_propagate_witness :
    mapHitToResult ⟨"h0", none, none⟩ = Except.ok none ∧
    mapHits [goodHitFix] =
      Except.ok ([goodHitFix].filterMap
        (fun h => ((mapHitToResult h).toOption).bind id)) :=
  ⟨mapHits_skip_and_propagate.1 ⟨"h0", none, none⟩ rfl,
    mapHits_skip_and_propagate.2.2.2 [goodHitFix] (by decide)⟩

/-- Chunk lists whose entries are indexed consecutively from `idx` and
whose ids are derived from the document id and the entry's ordinal. -/
def ChunksFrom (docId : String) (idx : Nat) (cs : List SEBIChunk) : Prop :=
  ∀ i (h : i < cs.length),
    (cs.get ⟨i, h⟩).chunk_index = idx + i ∧
    (cs.get ⟨i, h⟩).chunk_id = docId ++ "-chunk-" ++ toString (idx + i)

/-- The empty chunk list is consecutively indexed from anywhere. -/
theorem chunksFrom_nil (docId : String) (idx : Nat) : ChunksFrom docId idx [] :=
  fun _ h => absurd h (by simp)

/-- Prepending the chunk carrying index `idx` to a list indexed from
`idx + 1`. -/
theorem chunksFrom_cons (docId : String) (idx : Nat) (c : SEBIChunk) (cs : List SEBIChunk)
    (hc : c.chunk_index = idx ∧ c.chunk_id = docId ++ "-chunk-" ++ toString idx)
    (hcs : ChunksFrom docId (idx + 1) cs) : ChunksFrom docId idx (c :: cs) := by
  intro i h
  match i with
  | 0 => simpa using hc
  | i + 1 =>
    have := hcs i (by simpa using Nat.lt_of_succ_lt_succ h)
    simpa [Nat.add_comm, Nat.add_assoc, Nat.add_left_comm] using this

/-- Concatenating a list indexed from `idx` with one indexed from
`idx + ` the first list's length. -/
theorem chunksFrom_append (docId : String) (idx : Nat) (cs ds : List SEBIChunk)
    (h1 : ChunksFrom docId idx cs) (h2 : ChunksFrom docId (idx + cs.length) ds) :
    ChunksFrom docId idx (cs ++ ds) := by
  intro i h
  by_cases hi : i < cs.length
  · have := h1 i hi
    have hget : (cs ++ ds).get ⟨i, h⟩ = cs.get ⟨i, hi⟩ := by
      simp only [List.get_eq_getElem]
      exact List.getElem_append_left hi
    rw [hget]
    exact this
  · have hlen : i - cs.length < ds.length := by
      have := h
      simp only [List.length_append] at this
      omega
    have := h2 (i - cs.length) hlen
    have hget : (cs ++ ds).get ⟨i, h⟩ = ds.get ⟨i - cs.length, hlen⟩ := by
      simp only [List.get_eq_getElem]
      exact List.getElem_append_right (by omega)
    rw [hget]
    constructor
    · rw [this.1]; omega
    · rw [this.2]
      congr 2
      omega

/-- `emitTexts` emits chunks indexed consecutively from its starting
index, with ids derived from the document id and each ordinal. -/
theorem emitTexts_chunksFrom (tc : String → Nat) (docId : String) (hier : List String)
    (keep : Nat → Bool) :
    ∀ (texts : List String) (idx : Nat), ChunksFrom docId idx (emitTexts tc docId hier keep texts idx)
  | [], idx => by
    rw [emitTexts]; exact chunksFrom_nil docId idx
  | t :: rest, idx => by
    rw [emitTexts]
    by_cases hk : keep (tc t)
    · simp only [hk, if_true]
      exact chunksFrom_cons docId idx _ _ ⟨rfl, rfl⟩ (emitTexts_chunksFrom tc docId hier keep rest (idx + 1))
    · simp only [hk, if_false, Bool.false_eq_true]
      exact emitTexts_chunksFrom tc docId hier keep rest idx

/-- `emitBlocks` emits chunks indexed consecutively from its starting
index, with ids derived from the document id and each ordinal. -/
theorem emitBlocks_chunksFrom (tc : String → Nat) (docId : String)
    (maxTokens minTokens overlap blocksLen : Nat) :
    ∀ (blocks : List ContentBlock) (idx : Nat),
      ChunksFrom docId idx (emitBlocks tc docId maxTokens minTokens overlap blocksLen blocks idx)
  | [], idx => by
    rw [emitBlocks]; exact chunksFrom_nil docId idx
  | b :: rest, idx => by
    rw [emitBlocks]
    by_cases hfit : tc b.content ≤ maxTokens
    · simp only [hfit, if_true]
      by_cases hmin : tc b.content ≥ minTokens ∨ blocksLen = 1
      · simp only [hmin, if_true]
        exact chunksFrom_cons docId idx _ _ ⟨rfl, rfl⟩
          (emitBlocks_chunksFrom tc docId maxTokens minTokens overlap blocksLen rest (idx + 1))
      · simp only [hmin, if_false]
        exact emitBlocks_chunksFrom tc docId maxTokens minTokens overlap blocksLen rest idx
    · simp only [hfit, if_false]
      exact chunksFrom_append docId idx _ _
        (emitTexts_chunksFrom tc docId b.hierarchy _ _ idx)
        (by
          have hlen := emitTexts_chunksFrom tc docId b.hierarchy
            (fun tok => tok ≥ minTokens ∨ (splitByTokens tc b.content maxTokens overlap).length = 1)
            (splitByTokens tc b.content maxTokens overlap)
          exact emitBlocks_chunksFrom tc docId maxTokens minTokens overlap blocksLen rest _)

/-- C6: for every document and every chunk-options value, the chunks
produced by `chunkDocument` carry `chunk_index` values exactly
`0..n-1` in emission order with no gaps, and each `chunk_id` is the
string determined by the document id and the ordinal. -/
theorem chunkDocument_ordinals (tc : String → Nat) (document : SEBIDocument)
    (options : ChunkOptions) (i : Nat) (h : i < (chunkDocument tc document options).length) :
    ((chunkDocument tc document options).get ⟨i, h⟩).chunk_index = i ∧
    ((chunkDocument tc document options).get ⟨i, h⟩).chunk_id =
      document.id ++ "-chunk-" ++ toString i := by
  have hmain : ChunksFrom document.id 0 (chunkDocument tc document options) := by
    rw [chunkDocument]
    by_cases hs : (extractSections document.content).isEmpty
    · simp only [hs, if_true]
      exact emitTexts_chunksFrom tc document.id [] _ _ 0
    · simp only [hs, if_false, Bool.false_eq_true]
      exact emitBlocks_chunksFrom tc document.id _ _ _ _ _ 0
  have := hmain i h
  simpa using this

unseal splitSentAux in
/-- C6 (witness): the ordinal/id law at position 0 of a concrete run. -/
theorem chunkDocument_ordinals_witness :
    0 < (chunkDocument tcWords docW optsW).length ∧
    ((chunkDocument tcWords docW optsW).get ⟨0, by decide⟩).chunk_index = 0 ∧
    ((chunkDocument tcWords docW optsW).get ⟨0, by decide⟩).chunk_id =
      docW.id ++ "-chunk-" ++ toString 0 :=
  ⟨by decide, chunkDocument_ordinals tcWords docW optsW 0 (by decide)⟩

/-- Every chunk emitted by `emitTexts` carries the token count of its
own content. -/
theorem emitTexts_tokens (tc : String → Nat) (docId : String) (hier : List String)
    (keep : Nat → Bool) :
    ∀ (texts : List String) (idx : Nat) (c : SEBIChunk),
      c ∈ emitTexts tc docId hier keep texts idx → c.tokens = tc c.content
  | [], idx, c => by rw [emitTexts]; intro h; exact absurd h (List.not_mem_nil c)
  | t :: rest, idx, c => by
    rw [emitTexts]
    by_cases hk : keep (tc t)
    · simp only [hk, if_true, List.mem_cons]
      rintro (rfl | hmem)
      · rfl
      · exact emitTexts_tokens tc docId hier keep rest (idx + 1) c hmem
    · simp only [hk, if_false, Bool.false_eq_true]
      exact emitTexts_tokens tc docId hier keep rest idx c

/-- Every chunk emitted by `emitBlocks` carries the token count of its
own content. -/
theorem emitBlocks_tokens (tc : String → Nat) (docId : String)
    (maxTokens minTokens overlap blocksLen : Nat) :
    ∀ (blocks : List ContentBlock) (idx : Nat) (c : SEBIChunk),
      c ∈ emitBlocks tc docId maxTokens minTokens overlap blocksLen blocks idx →
      c.tokens = tc c.content
  | [], idx, c => by rw [emitBlocks]; intro h; exact absurd h (List.not_mem_nil c)
  | b :: rest, idx, c => by
    rw [emitBlocks]
    by_cases hfit : tc b.content ≤ maxTokens
    · simp only [hfit, if_true]
      by_cases hmin : tc b.content ≥ minTokens ∨ blocksLen = 1
      · simp only [hmin, if_true, List.mem_cons]
        rintro (rfl | hmem)
        · rfl
        · exact emitBlocks_tokens tc docId maxTokens minTokens overlap blocksLen rest (idx + 1) c hmem
      · simp only [hmin, if_false]
        exact emitBlocks_tokens tc docId maxTokens minTokens overlap blocksLen rest idx c
    · simp only [hfit, if_false, List.mem_append]
      rintro (hmem | hmem)
      · exact emitTexts_tokens tc docId b.hierarchy _ _ idx c hmem
      · exact emitBlocks_tokens tc docId maxTokens minTokens overlap blocksLen rest _ c hmem

/-- C7: every passage emitted by `chunkDocument` has `tokens` equal to
the token counter's exact count of its `content` — the same counter the
chunker uses throughout (the program's single `countTokens` over the
configured `cl100k_base` encoding), not an estimate. -/
theorem chunkDocument_tokens_exact (tc : String → Nat) (document : SEBIDocument)
    (options : ChunkOptions) :
    ∀ c ∈ chunkDocument tc document options, c.tokens = tc c.content := by
  intro c hc
  rw [chunkDocument] at hc
  by_cases hs : (extractSections document.content).isEmpty
  · simp only [hs, if_true] at hc
    exact emitTexts_tokens tc document.id [] _ _ 0 c hc
  · simp only [hs, if_false, Bool.false_eq_true] at hc
    exact emitBlocks_tokens tc document.id _ _ _ _ _ 0 c hc

unseal splitSentAux in
/-- C7 (witness): the exact-count law for the first chunk of a
concrete run. -/
theorem chunkDocument_tokens_exact_witness :
    (mkChunk "d2" 0 "Hello world. This is plain." 5 []).tokens =
      tcWords "Hello world. This is plain." :=
  chunkDocument_tokens_exact tcWords docW optsW
    (mkChunk "d2" 0 "Hello world. This is plain." 5 []) (by decide)

/-- When the accumulated count has already reached the target, the
overlap loop takes nothing. -/
theorem takeOverlapRev_nil_of_not_lt (tc : String → Nat) (overlap : Nat) (rev : List String)
    (acc : Nat) (h : ¬ acc < overlap) : takeOverlapRev tc overlap rev acc = [] := by
  cases rev <;> simp [takeOverlapRev, h]

/-- The overlap loop takes an initial segment of the reversed list. -/
theorem takeOverlapRev_shape (tc : String → Nat) (overlap : Nat) :
    ∀ (rev : List String) (acc : Nat), ∃ n, takeOverlapRev tc overlap rev acc = rev.take n
  | [], acc => ⟨0, by simp [takeOverlapRev]⟩
  | s :: rest, acc => by
    by_cases h : acc < overlap
    · obtain ⟨n, hn⟩ := takeOverlapRev_shape tc overlap rest (acc + tc s)
      exact ⟨n + 1, by simp [takeOverlapRev, h, hn]⟩
    · exact ⟨0, by simp [takeOverlapRev, h]⟩

/-- The overlap seed is a trailing segment of the closed chunk. -/
theorem takeOverlap_suffix_ex (tc : String → Nat) (overlap : Nat) (sents : List String) :
    ∃ t, t ++ takeOverlap tc overlap sents = sents := by
  obtain ⟨n, hn⟩ := takeOverlapRev_shape tc overlap sents.reverse 0
  refine ⟨(sents.reverse.drop n).reverse, ?_⟩
  rw [takeOverlap, hn, ← List.reverse_append, List.take_append_drop, List.reverse_reverse]

/-- With a positive overlap target, the seed taken from a non-empty
chunk is non-empty. -/
theorem takeOverlap_ne_nil (tc : String → Nat) (overlap : Nat) (hov : 0 < overlap)
    (sents : List String) (hs : sents ≠ []) : takeOverlap tc overlap sents ≠ [] := by
  rw [takeOverlap]
  have hrev : sents.reverse ≠ [] := by simpa using hs
  match h : sents.reverse with
  | [] => exact absurd h hrev
  | s :: rest => simp [takeOverlapRev, hov]

/-- Dropping a reversed list's head is reversing its `dropLast`. -/
theorem reverse_drop_one {α : Type} (l : List α) : l.reverse.drop 1 = l.dropLast.reverse := by
  induction l using List.reverseRecOn with
  | nil => rfl
  | append_singleton xs a _ => simp

/-- The token sum of a reversed sentence list. -/
theorem sumTokens_reverse (tc : String → Nat) (l : List String) :
    sumTokens tc l.reverse = sumTokens tc l := by
  simp [sumTokens, List.map_reverse, List.sum_reverse]

/-- Every take of the overlap loop happens strictly below the target:
the seed minus its final take (its earliest sentence) stays under the
target. -/
theorem takeOverlapRev_bound (tc : String → Nat) (overlap : Nat) :
    ∀ (rev : List String) (acc : Nat), acc < overlap →
      acc + sumTokens tc (takeOverlapRev tc overlap rev acc).dropLast < overlap
  | [], acc, h => by simpa [takeOverlapRev, sumTokens] using h
  | s :: rest, acc, h => by
    rw [takeOverlapRev, if_pos h]
    by_cases h2 : acc + tc s < overlap
    · have ih := takeOverlapRev_bound tc overlap rest (acc + tc s) h2
      match hr : takeOverlapRev tc overlap rest (acc + tc s) with
      | [] => simpa [sumTokens] using h
      | x :: xs =>
        rw [hr] at ih
        simp only [List.dropLast_cons₂, sumTokens, List.map_cons, List.sum_cons] at ih ⊢
        omega
    · rw [takeOverlapRev_nil_of_not_lt tc overlap rest (acc + tc s) h2]
      simpa [sumTokens] using h

/-- The seed without its earliest sentence stays strictly under the
overlap target. -/
theorem takeOverlap_drop_one_bound (tc : String → Nat) (overlap : Nat) (hov : 0 < overlap)
    (sents : List String) :
    sumTokens tc ((takeOverlap tc overlap sents).drop 1) < overlap := by
  rw [takeOverlap, reverse_drop_one, sumTokens_reverse]
  simpa using takeOverlapRev_bound tc overlap sents.reverse 0 hov

/-- The chunk-to-chunk seeding invariant of `splitByTokens`' main loop:
starting from a state whose closed chunks (with the open chunk
appended) already form a seed chain, the loop's final chunk list is a
seed chain.  The relation: the seed computed from the earlier chunk is
non-empty, a trailing segment of it bounded (after its earliest
sentence) by the overlap target, and a leading segment of the later
chunk. -/
theorem splitGo_chain (tc : String → Nat) (maxTokens overlap : Nat) (hov : 0 < overlap) :
    ∀ (sents : List String) (chunks : List (List String)) (cur : List String) (curTok : Nat),
      ((chunks = [] ∧ cur = []) ∨
        (cur ≠ [] ∧ List.Chain' (fun a b =>
          takeOverlap tc overlap a ≠ [] ∧
          (∃ t, t ++ takeOverlap tc overlap a = a) ∧
          sumTokens tc ((takeOverlap tc overlap a).drop 1) < overlap ∧
          ∃ rest, b = takeOverlap tc overlap a ++ rest) (chunks ++ [cur]))) →
      List.Chain' (fun a b =>
        takeOverlap tc overlap a ≠ [] ∧
        (∃ t, t ++ takeOverlap tc overlap a = a) ∧
        sumTokens tc ((takeOverlap tc overlap a).drop 1) < overlap ∧
        ∃ rest, b = takeOverlap tc overlap a ++ rest)
        (splitGo tc maxTokens overlap sents chunks cur curTok)
  | [], chunks, cur, curTok, inv => by
    rw [splitGo]
    rcases inv with ⟨hch, hcur⟩ | ⟨hne, hchain⟩
    · simp [hch, hcur]
    · simp only [hne, if_true, ne_eq, not_false_eq_true]
      exact hchain
  | s :: rest, chunks, cur, curTok, inv => by
    rw [splitGo]
    by_cases hcl : curTok + tc s > maxTokens ∧ cur ≠ []
    · rw [if_pos hcl, if_pos hov]
      apply splitGo_chain tc maxTokens overlap hov rest
      rcases inv with ⟨_, hcur⟩ | ⟨_, hchain⟩
      · exact absurd hcur hcl.2
      refine Or.inr ⟨by simp, ?_⟩
      rw [List.chain'_append]
      refine ⟨hchain, List.chain'_singleton _, ?_⟩
      intro x hx y hy
      rw [List.getLast?_concat] at hx
      simp only [List.head?_cons, Option.mem_some_iff] at hx hy
      subst hx
      subst hy
      exact ⟨takeOverlap_ne_nil tc overlap hov cur hcl.2,
        takeOverlap_suffix_ex tc overlap cur,
        takeOverlap_drop_one_bound tc overlap hov cur,
        ⟨[s], rfl⟩⟩
    · rw [if_neg hcl]
      apply splitGo_chain tc maxTokens overlap hov rest
      rcases inv with ⟨hch, hcur⟩ | ⟨hne, hchain⟩
      · subst hch; subst hcur
        exact Or.inr ⟨by simp, List.chain'_singleton _⟩
      · refine Or.inr ⟨by simp [hne], ?_⟩
        rw [List.chain'_append] at hchain ⊢
        refine ⟨hchain.1, List.chain'_singleton _, ?_⟩
        intro x hx y hy
        have hrel := hchain.2.2 x hx cur (by simp)
        simp only [List.head?_cons, Option.mem_some_iff] at hy
        subst hy
        obtain ⟨h1, h2, h3, r, hr⟩ := hrel
        exact ⟨h1, h2, h3, r ++ [s], by rw [hr, List.append_assoc]⟩

/-- C2 (amended): for every chunking run with `overlap > 0`, whenever a
passage is closed the next passage is seeded with a non-empty run of
trailing sentences of the previous passage, taken greedily from the
end until the accumulated token count *reaches* the configured overlap
— so the seed's combined token count may exceed the overlap target,
but the seed minus its earliest sentence stays strictly below it.
Consequently consecutive chunks of `splitByTokens` (stated on the
sentence lists that are joined with spaces to form the emitted
passages) always share that non-empty seed as a trailing segment of
the former and a leading segment of the latter. -/
theorem splitByTokens_overlap_bound (tc : String → Nat) (maxTokens overlap : Nat)
    (hov : 0 < overlap) (text : String) :
    splitByTokens tc text maxTokens overlap =
      (splitByTokensSents tc maxTokens overlap (splitIntoSentences text)).map
        (String.intercalate " ") ∧
    List.Chain' (fun a b =>
        takeOverlap tc overlap a ≠ [] ∧
        (∃ t, t ++ takeOverlap tc overlap a = a) ∧
        sumTokens tc ((takeOverlap tc overlap a).drop 1) < overlap ∧
        ∃ rest, b = takeOverlap tc overlap a ++ rest)
      (splitByTokensSents tc maxTokens overlap (splitIntoSentences text)) :=
  ⟨rfl, splitGo_chain tc maxTokens overlap hov (splitIntoSentences text) [] [] 0
    (Or.inl ⟨rfl, rfl⟩)⟩

unseal splitSentAux in
/-- C2 (counterexample): a run (word-counting tokenizer, `maxTokens =
4`, `overlap = 2`) in which the seed shared between the two produced
passages is the whole first passage, with 3 tokens — strictly more
than the configured overlap of 2: splitting `"Aaaa bbb cc. Dd ee."`
closes `["Aaaa bbb cc."]` and seeds the next passage with that whole
sentence (the only non-empty trailing segment of a one-sentence
chunk), because the seeding loop keeps taking sentences until the
accumulated count reaches the target, overshooting it. -/
theorem splitByTokens_overlap_counterexample :
    splitByTokens tcWords "Aaaa bbb cc. Dd ee." 4 2 =
      ["Aaaa bbb cc.", "Aaaa bbb cc. Dd ee."] ∧
    takeOverlap tcWords 2 ["Aaaa bbb cc."] = ["Aaaa bbb cc."] ∧
    sumTokens tcWords ["Aaaa bbb cc."] = 3 ∧
    ¬ sumTokens tcWords (takeOverlap tcWords 2 ["Aaaa bbb cc."]) ≤ 2 := by
  decide

unseal splitSentAux in
/-- C2 (witness): the amended seeding law at the concrete
counterexample run. -/
theorem splitByTokens_overlap_bound_witness :
    0 < 2 ∧
    (splitByTokens tcWords "Aaaa bbb cc. Dd ee." 4 2 =
      (splitByTokensSents tcWords 4 2 (splitIntoSentences "Aaaa bbb cc. Dd ee.")).map
        (String.intercalate " ") ∧
    List.Chain' (fun a b =>
        takeOverlap tcWords 2 a ≠ [] ∧
        (∃ t, t ++ takeOverlap tcWords 2 a = a) ∧
        sumTokens tcWords ((takeOverlap tcWords 2 a).drop 1) < 2 ∧
        ∃ rest, b = takeOverlap tcWords 2 a ++ rest)
      (splitByTokensSents tcWords 4 2 (splitIntoSentences "Aaaa bbb cc. Dd ee."))) :=
  ⟨by decide, splitByTokens_overlap_bound tcWords 4 2 (by decide) "Aaaa bbb cc. Dd ee."⟩

/-- A score-map entry with a different key does not affect a key's
fused score. -/
theorem rrfScoreOf_cons_of_ne (e : String × SearchResult × ℚ)
    (l : List (String × SearchResult × ℚ)) (key : String) (h : ¬ e.1 = key) :
    rrfScoreOf (e :: l) key = rrfScoreOf l key := by
  simp only [rrfScoreOf]
  rw [List.find?_cons_of_neg _ (by simp [h])]

/-- The fused score of the key heading the score map. -/
theorem rrfScoreOf_cons_of_eq (e : String × SearchResult × ℚ)
    (l : List (String × SearchResult × ℚ)) (key : String) (h : e.1 = key) :
    rrfScoreOf (e :: l) key = e.2.2 := by
  simp only [rrfScoreOf]
  rw [List.find?_cons_of_pos _ (by simp [h])]
  rfl

/-- The update `Map` pass of `rrfInsert` leaves other keys' scores
unchanged. -/
theorem rrfScoreOf_map_update_other (k : ℚ) (idx : Nat) (r : SearchResult) (key : String)
    (h : rrfKey r ≠ key) :
    ∀ scores : List (String × SearchResult × ℚ),
      rrfScoreOf
        (scores.map (fun e =>
          if e.1 = rrfKey r then (e.1, e.2.1, e.2.2 + 1 / (k + idx + 1)) else e)) key =
      rrfScoreOf scores key
  | [] => rfl
  | e :: es => by
    by_cases he : e.1 = rrfKey r
    · rw [List.map_cons, if_pos he,
        rrfScoreOf_cons_of_ne _ _ _ (by simp [he, h]),
        rrfScoreOf_cons_of_ne _ _ _ (by simp [he, h]),
        rrfScoreOf_map_update_other k idx r key h es]
    · rw [List.map_cons, if_neg he]
      by_cases hek : e.1 = key
      · rw [rrfScoreOf_cons_of_eq _ _ _ hek, rrfScoreOf_cons_of_eq _ _ _ hek]
      · rw [rrfScoreOf_cons_of_ne _ _ _ hek, rrfScoreOf_cons_of_ne _ _ _ hek,
          rrfScoreOf_map_update_other k idx r key h es]

/-- The update `Map` pass of `rrfInsert` adds the increment to the
matched key (when some entry matches). -/
theorem rrfScoreOf_map_update_self (k : ℚ) (idx : Nat) (r : SearchResult) :
    ∀ scores : List (String × SearchResult × ℚ),
      scores.any (fun e => e.1 = rrfKey r) →
      rrfScoreOf
        (scores.map (fun e =>
          if e.1 = rrfKey r then (e.1, e.2.1, e.2.2 + 1 / (k + idx + 1)) else e)) (rrfKey r) =
      rrfScoreOf scores (rrfKey r) + 1 / (k + idx + 1)
  | [], h => by simp at h
  | e :: es, h => by
    by_cases he : e.1 = rrfKey r
    · rw [List.map_cons, if_pos he,
        rrfScoreOf_cons_of_eq (e.1, e.2.1, e.2.2 + 1 / (k + idx + 1)) _ _ he,
        rrfScoreOf_cons_of_eq e es _ he]
    · have hes : es.any (fun e => e.1 = rrfKey r) := by
        simpa [List.any_cons, he] using h
      rw [List.map_cons, if_neg he, rrfScoreOf_cons_of_ne _ _ _ he,
        rrfScoreOf_cons_of_ne _ _ _ he, rrfScoreOf_map_update_self k idx r es hes]

/-- A key absent from the score map has fused score `0`. -/
theorem rrfScoreOf_eq_zero_of_not_any (scores : List (String × SearchResult × ℚ)) (key : String)
    (h : ¬ scores.any (fun e => e.1 = key)) : rrfScoreOf scores key = 0 := by
  have : scores.find? (fun e => e.1 = key) = none := by
    rw [List.find?_eq_none]
    intro x hx
    simp only [List.any_eq_true, not_exists, not_and] at h
    simpa using h x hx
  simp [rrfScoreOf, this]

/-- Appending a fresh entry sets its key's score to the increment. -/
theorem rrfScoreOf_append_self (scores : List (String × SearchResult × ℚ))
    (entry : String × SearchResult × ℚ) (h : ¬ scores.any (fun e => e.1 = entry.1)) :
    rrfScoreOf (scores ++ [entry]) entry.1 = entry.2.2 := by
  induction scores with
  | nil => simp [rrfScoreOf]
  | cons e es ih =>
    have he : ¬ e.1 = entry.1 := by
      intro hc
      exact h (by simp [List.any_cons, hc])
    rw [List.cons_append, rrfScoreOf_cons_of_ne _ _ _ he]
    exact ih (fun hc => h (by simp [List.any_cons, hc]))

/-- Appending an entry leaves other keys' scores unchanged. -/
theorem rrfScoreOf_append_other (scores : List (String × SearchResult × ℚ))
    (entry : String × SearchResult × ℚ) (key : String) (h : entry.1 ≠ key) :
    rrfScoreOf (scores ++ [entry]) key = rrfScoreOf scores key := by
  induction scores with
  | nil =>
    show rrfScoreOf [entry] key = rrfScoreOf [] key
    rw [rrfScoreOf_cons_of_ne _ _ _ h]
  | cons e es ih =>
    by_cases hek : e.1 = key
    · rw [List.cons_append, rrfScoreOf_cons_of_eq _ _ _ hek, rrfScoreOf_cons_of_eq _ _ _ hek]
    · rw [List.cons_append, rrfScoreOf_cons_of_ne _ _ _ hek, rrfScoreOf_cons_of_ne _ _ _ hek]
      exact ih

/-- `rrfInsert` adds exactly its increment to the inserted result's
key. -/
theorem rrfScoreOf_insert_self (k : ℚ) (idx : Nat) (r : SearchResult)
    (scores : List (String × SearchResult × ℚ)) :
    rrfScoreOf (rrfInsert k idx r scores) (rrfKey r) =
      rrfScoreOf scores (rrfKey r) + 1 / (k + idx + 1) := by
  rw [rrfInsert]
  by_cases hmem : scores.any (fun e => e.1 = rrfKey r)
  · rw [if_pos hmem]
    exact rrfScoreOf_map_update_self k idx r scores hmem
  · rw [if_neg hmem, rrfScoreOf_eq_zero_of_not_any scores _ hmem]
    have := rrfScoreOf_append_self scores (rrfKey r, r, 1 / (k + idx + 1)) hmem
    simpa using this

/-- `rrfInsert` leaves other keys' scores unchanged. -/
theorem rrfScoreOf_insert_other (k : ℚ) (idx : Nat) (r : SearchResult)
    (scores : List (String × SearchResult × ℚ)) (key : String) (h : rrfKey r ≠ key) :
    rrfScoreOf (rrfInsert k idx r scores) key = rrfScoreOf scores key := by
  rw [rrfInsert]
  by_cases hmem : scores.any (fun e => e.1 = rrfKey r)
  · rw [if_pos hmem]
    exact rrfScoreOf_map_update_other k idx r key h scores
  · rw [if_neg hmem]
    exact rrfScoreOf_append_other scores _ key h

/-- Processing a ranked list none of whose keys is `key` leaves `key`'s
score unchanged. -/
theorem rrfScoreOf_process_of_forall_ne (k : ℚ) :
    ∀ (l : List SearchResult) (idx : Nat) (scores : List (String × SearchResult × ℚ))
      (key : String), (∀ r ∈ l, rrfKey r ≠ key) →
      rrfScoreOf (rrfProcess k l idx scores) key = rrfScoreOf scores key
  | [], idx, scores, key, _ => rfl
  | r :: rest, idx, scores, key, h => by
    rw [rrfProcess, rrfScoreOf_process_of_forall_ne k rest (idx + 1) _ key
      (fun x hx => h x (List.mem_cons_of_mem r hx)),
      rrfScoreOf_insert_other k idx r scores key (h r (List.mem_cons_self r rest))]

/-- Processing one ranked list (ranks counted from `idx`, no duplicate
keys) accumulates exactly `1 / (k + rank + 1)` into `key`'s score when
`key` occurs at absolute rank `rank`, and nothing otherwise. -/
theorem rrfScoreOf_process_nodup (k : ℚ) :
    ∀ (l : List SearchResult) (idx : Nat) (scores : List (String × SearchResult × ℚ))
      (key : String), (l.map rrfKey).Nodup →
      rrfScoreOf (rrfProcess k l idx scores) key =
        rrfScoreOf scores key +
          (match l.findIdx? (fun r => rrfKey r = key) idx with
           | some rank => 1 / (k + (rank : ℚ) + 1)
           | none => 0)
  | [], idx, scores, key, _ => by simp [rrfProcess, List.findIdx?]
  | r :: rest, idx, scores, key, hnd => by
    have hnd2 : rrfKey r ∉ rest.map rrfKey ∧ (rest.map rrfKey).Nodup := by
      rw [List.map_cons, List.nodup_cons] at hnd
      exact hnd
    have hnd' : (rest.map rrfKey).Nodup := hnd2.2
    have hnotin : rrfKey r ∉ rest.map rrfKey := hnd2.1
    rw [rrfProcess]
    by_cases hk : rrfKey r = key
    · have hrest : ∀ x ∈ rest, rrfKey x ≠ key := by
        intro x hx hc
        exact hnotin (by rw [hk, ← hc]; exact List.mem_map_of_mem rrfKey hx)
      rw [rrfScoreOf_process_of_forall_ne k rest (idx + 1) _ key hrest,
        ← hk, rrfScoreOf_insert_self k idx r scores]
      rw [List.findIdx?_cons]
      simp [hk]
    · rw [rrfScoreOf_process_nodup k rest (idx + 1) _ key hnd',
        rrfScoreOf_insert_other k idx r scores key hk,
        List.findIdx?_cons]
      simp [hk]

/-- The fused score `rrfAccum` assigns to a key is the sum over the
input lists of `1 / (k + rank + 1)` at the key's 0-based rank in each
list it appears in (lists without duplicate keys). -/
theorem rrfScoreOf_foldl (k : ℚ) :
    ∀ (sets : List (List SearchResult)) (scores : List (String × SearchResult × ℚ))
      (key : String), (∀ s ∈ sets, (s.map rrfKey).Nodup) →
      rrfScoreOf (sets.foldl (fun sc s => rrfProcess k s 0 sc) scores) key =
        rrfScoreOf scores key +
          (sets.map (fun s =>
            match rankOf key s with
            | some rank => 1 / (k + (rank : ℚ) + 1)
            | none => 0)).sum
  | [], scores, key, _ => by simp
  | s :: ss, scores, key, h => by
    rw [List.foldl_cons,
      rrfScoreOf_foldl k ss _ key (fun x hx => h x (List.mem_cons_of_mem s hx)),
      rrfScoreOf_process_nodup k s 0 scores key (h s (List.mem_cons_self s ss))]
    rw [List.map_cons, List.sum_cons, rankOf]
    ring

/-- C8: in `reciprocalRankFusion` (whose constant `RRF_K` is 60), each
result keyed by `(document id, chunk id)` accumulates `1/(k + rank + 1)`
into its fused score from each input list it appears in (0-based rank
within that list, lists without duplicate keys), and consequently a
passage at rank 0 in both the vector and lexical lists has a strictly
higher fused score than any passage appearing in only one of them — for
any fixed non-negative `k`. -/
theorem rrf_rank_zero_outranks :
    RRF_K = 60 ∧
    (∀ (k : ℚ) (sets : List (List SearchResult)) (key : String),
      (∀ s ∈ sets, (s.map rrfKey).Nodup) →
      rrfScoreOf (rrfAccum k sets) key =
        (sets.map (fun s =>
          match rankOf key s with
          | some rank => 1 / (k + (rank : ℚ) + 1)
          | none => 0)).sum) ∧
    (∀ (k : ℚ), 0 ≤ k →
      ∀ (v l : List SearchResult) (a b : SearchResult) (rankB : Nat),
        (v.map rrfKey).Nodup → (l.map rrfKey).Nodup →
        rankOf (rrfKey a) v = some 0 → rankOf (rrfKey a) l = some 0 →
        ((rankOf (rrfKey b) v = some rankB ∧ rankOf (rrfKey b) l = none) ∨
          (rankOf (rrfKey b) v = none ∧ rankOf (rrfKey b) l = some rankB)) →
        rrfScoreOf (rrfAccum k [v, l]) (rrfKey a) = 2 / (k + 1) ∧
        rrfScoreOf (rrfAccum k [v, l]) (rrfKey b) = 1 / (k + rankB + 1) ∧
        rrfScoreOf (rrfAccum k [v, l]) (rrfKey b) <
          rrfScoreOf (rrfAccum k [v, l]) (rrfKey a)) := by
  have haccum : ∀ (k : ℚ) (sets : List (List SearchResult)) (key : String),
      (∀ s ∈ sets, (s.map rrfKey).Nodup) →
      rrfScoreOf (rrfAccum k sets) key =
        (sets.map (fun s =>
          match rankOf key s with
          | some rank => 1 / (k + (rank : ℚ) + 1)
          | none => 0)).sum := by
    intro k sets key h
    have := rrfScoreOf_foldl k sets [] key h
    simpa [rrfAccum, rrfScoreOf] using this
  refine ⟨rfl, haccum, ?_⟩
  intro k hk v l a b rankB hnv hnl hav hal hb
  have hnodups : ∀ s ∈ [v, l], (s.map rrfKey).Nodup := by
    intro s hs
    simp only [List.mem_cons, List.not_mem_nil, or_false] at hs
    rcases hs with rfl | rfl
    · exact hnv
    · exact hnl
  have hka := haccum k [v, l] (rrfKey a) hnodups
  have hkb := haccum k [v, l] (rrfKey b) hnodups
  simp only [List.map_cons, List.map_nil, List.sum_cons, List.sum_nil, add_zero] at hka hkb
  rw [hav, hal] at hka
  have hpos1 : (0 : ℚ) < k + 1 := by linarith
  have hrbnn : (0 : ℚ) ≤ (rankB : ℚ) := Nat.cast_nonneg rankB
  have hpos2 : (0 : ℚ) < k + (rankB : ℚ) + 1 := by linarith
  have hscoreA : rrfScoreOf (rrfAccum k [v, l]) (rrfKey a) = 2 / (k + 1) := by
    rw [hka]
    norm_num
    rw [div_eq_mul_inv]
    ring
  have hscoreB : rrfScoreOf (rrfAccum k [v, l]) (rrfKey b) = 1 / (k + rankB + 1) := by
    rcases hb with ⟨hbv, hbl⟩ | ⟨hbv, hbl⟩ <;>
      · rw [hbv, hbl] at hkb
        rw [hkb]
        simp
  refine ⟨hscoreA, hscoreB, ?_⟩
  rw [hscoreA, hscoreB]
  have step1 : 1 / (k + (rankB : ℚ) + 1) ≤ 1 / (k + 1) :=
    one_div_le_one_div_of_le hpos1 (by linarith)
  have step2 : 1 / (k + 1) < 2 / (k + 1) := by
    rw [div_lt_div_iff₀ hpos1 hpos1]
    linarith
  linarith

/-- C8 (witness): the accumulation law and the dominance inequality at
a concrete two-list fusion: `resA` at rank 0 of both lists, `resB` only
in the first list at rank 1, with the code's constant `k = 60`. -/
theorem rrf_rank_zero_outranks_witness :
    (0 : ℚ) ≤ 60 ∧
    (rrfScoreOf (rrfAccum 60 [[resA, resB], [resA]]) (rrfKey resA) = 2 / (60 + 1) ∧
     rrfScoreOf (rrfAccum 60 [[resA, resB], [resA]]) (rrfKey resB) =
       1 / (60 + ((1 : Nat) : ℚ) + 1) ∧
     rrfScoreOf (rrfAccum 60 [[resA, resB], [resA]]) (rrfKey resB) <
       rrfScoreOf (rrfAccum 60 [[resA, resB], [resA]]) (rrfKey resA)) :=
  ⟨by norm_num,
    rrf_rank_zero_outranks.2.2 60 (by norm_num) [resA, resB] [resA] resA resB 1
      (by decide) (by decide) (by decide) (by decide)
      (Or.inl ⟨by decide, by decide⟩)⟩
